import Mathlib

/-!
Verification of the alttab quiz-event fetch-and-consolidate pipeline.

This file gives a shallow embedding of the Python sources `checker.py`,
`optimized.py` and `sana.py` (Canvas LMS action-log collection) and proves
properties of the embedded functions: deduplication (`skip_duplicates`),
event normalization (`format_event_description`, timestamp parsing),
pagination (`fetch_quiz_submissions_for_user`), per-submission sorting and
the concurrent consolidation merge.

Conventions of the embedding:
- Python dicts holding raw API data become structures with `Option` fields;
  `dict.get(k)` is the field itself, `dict.get(k, d)` is `Option.getD`.
- A Python function that can raise is embedded returning `Option`/sum types;
  `none` models the raised exception.
- Machine-level concerns (HTTP transport, threads) are modelled by explicit
  parameters: a mock API is a function from page number to page response,
  and the worker-completion order of the thread pool is an explicit list
  argument.
- `datetime.fromisoformat` (Python 3.10 semantics, used on strings after
  `.replace('Z', '+00:00')`) is modelled for the common subset
  `YYYY-MM-DD[<sep>HH[:MM[:SS[.fff|.ffffff]]][+HH:MM|-HH:MM]]` with
  calendar validation, which covers every timestamp shape the claims use.
-/

/-! ## Raw data model (shapes of the JSON records the scripts consume) -/

/-- One raw quiz-submission event as returned by the API.  Fields mirror the
keys the Python code reads with `event.get(...)`; `none` models an absent
key.  `data_question_id` models `event.get('data', \x7b\x7d).get('question_id')`. -/
structure RawEvent where
  event_type : Option String
  created_at : Option String
  description : Option String
  url : Option String
  user_agent : Option String
  data_question_id : Option String
deriving DecidableEq

/-- One quiz submission dict; the scripts only read its `id` key. -/
structure Submission where
  id : Option Nat
deriving DecidableEq

/-- A student enrollment record (`id`, display `name`) as built by
`fetch_course_enrollments`. -/
structure StudentInfo where
  id : Nat
  name : String
deriving DecidableEq

/-- The consolidated per-event row built by the main loops of `checker.py`
and `optimized.py` (the Normalized Event Record of the spec).  The opaque
`full_event_json` dump column of `optimized.py` is not modelled; no claim
concerns it. -/
structure NormalizedEvent where
  student_id : Nat
  student_name : String
  submission_id : Nat
  timestamp_hh_mm : String
  action_description : String
  raw_event_type : String
  raw_description : String
  user_agent : String
  url : String
deriving DecidableEq

/-! ## Python string primitives used by the sources -/

/-- Python `s.replace(c, rep)` for a single-character pattern (the sources
only use `.replace('Z', '+00:00')` and `.replace('_', ' ')`). -/
def pyReplaceChar (s : String) (c : Char) (rep : String) : String :=
  String.mk (s.data.foldr (fun a acc => (if a = c then rep.data else [a]) ++ acc) [])

/-- Python `s.capitalize()`: first character uppercased, all remaining
characters lowercased (ASCII; the tags in this program are ASCII). -/
def pyCapitalize (s : String) : String :=
  match s.data with
  | [] => ""
  | c :: rest => String.mk (c.toUpper :: rest.map Char.toLower)

/-- Lexicographic code-point comparison of character lists, as Python's
`<` on strings compares them. -/
def charListLt : List Char → List Char → Bool
  | [], [] => false
  | [], _ :: _ => true
  | _ :: _, [] => false
  | a :: as, b :: bs =>
    if a.toNat < b.toNat then true
    else if b.toNat < a.toNat then false
    else charListLt as bs

/-- Python string `<` (lexicographic by code point). -/
def pyStrLt (s t : String) : Bool := charListLt s.data t.data

/-! ## `datetime.fromisoformat` model -/

/-- A parsed `datetime` value.  `utcoffset` is the offset in minutes when
the string carried one (an aware datetime), `none` for a naive datetime. -/
structure PyDateTime where
  year : Nat
  month : Nat
  day : Nat
  hour : Nat
  minute : Nat
  second : Nat
  usec : Nat
  utcoffset : Option Int
deriving DecidableEq

/-- Reads exactly two digit characters as a number. -/
def parseDigit2 : List Char → Option (Nat × List Char)
  | a :: b :: rest =>
    if a.isDigit && b.isDigit then
      some ((a.toNat - 48) * 10 + (b.toNat - 48), rest)
    else none
  | _ => none

/-- Reads exactly four digit characters as a number. -/
def parseDigit4 : List Char → Option (Nat × List Char)
  | a :: b :: c :: d :: rest =>
    if a.isDigit && b.isDigit && c.isDigit && d.isDigit then
      some (((a.toNat - 48) * 10 + (b.toNat - 48)) * 100
              + (c.toNat - 48) * 10 + (d.toNat - 48), rest)
    else none
  | _ => none

/-- Consumes an expected literal character. -/
def expectChar (c : Char) : List Char → Option (List Char)
  | a :: rest => if a = c then some rest else none
  | [] => none

/-- Days in a month of the proleptic Gregorian calendar. -/
def daysInMonth (y m : Nat) : Nat :=
  if m = 2 then
    if y % 4 = 0 ∧ (y % 100 ≠ 0 ∨ y % 400 = 0) then 29 else 28
  else if m = 4 ∨ m = 6 ∨ m = 9 ∨ m = 11 then 30
  else 31

/-- Parses the optional trailing UTC offset `+HH:MM` / `-HH:MM`; the result
is the signed offset in minutes, `none` when the string ends without one. -/
def parseOffsetTail : List Char → Option (Option Int)
  | [] => some none
  | c :: rest =>
    if c = '+' ∨ c = '-' then
      match parseDigit2 rest with
      | some (hh, r1) =>
        match expectChar ':' r1 with
        | some r2 =>
          match parseDigit2 r2 with
          | some (mm, []) =>
            if hh < 24 ∧ mm < 60 then
              some (some (if c = '-' then -((hh * 60 + mm : Nat) : Int)
                          else ((hh * 60 + mm : Nat) : Int)))
            else none
          | _ => none
        | none => none
      | none => none
    else none

/-- Parses the fractional-seconds digits (exactly 3 or 6, per the strict
pre-3.11 `fromisoformat` grammar), returning microseconds. -/
def parseFractionTail (l : List Char) : Option (Nat × List Char) :=
  let ds := l.takeWhile Char.isDigit
  let rest := l.drop ds.length
  let v := ds.foldl (fun acc c => acc * 10 + (c.toNat - 48)) 0
  if ds.length = 3 then some (v * 1000, rest)
  else if ds.length = 6 then some (v, rest)
  else none

/-- Parses the time-of-day tail `HH[:MM[:SS[.frac]]][offset]`. -/
def parseTimeTail (l : List Char) : Option (Nat × Nat × Nat × Nat × Option Int) := do
  let (h, r1) ← parseDigit2 l
  match r1 with
  | ':' :: r2 => do
    let (mi, r3) ← parseDigit2 r2
    match r3 with
    | ':' :: r4 => do
      let (s, r5) ← parseDigit2 r4
      match r5 with
      | '.' :: r6 => do
        let (us, r7) ← parseFractionTail r6
        let off ← parseOffsetTail r7
        pure (h, mi, s, us, off)
      | _ => do
        let off ← parseOffsetTail r5
        pure (h, mi, s, 0, off)
    | _ => do
      let off ← parseOffsetTail r3
      pure (h, mi, 0, 0, off)
  | _ => do
    let off ← parseOffsetTail r1
    pure (h, 0, 0, 0, off)

/-- Model of Python 3.10 `datetime.fromisoformat`: a strict
`YYYY-MM-DD` date, then optionally one separator character and a
`HH[:MM[:SS[.fff|.ffffff]]]` time with optional `±HH:MM` offset, with the
range checks `datetime` itself performs.  Returns `none` exactly where
Python raises `ValueError`. -/
def fromisoformat (str : String) : Option PyDateTime := do
  let (y, r1) ← parseDigit4 str.data
  let r2 ← expectChar '-' r1
  let (mo, r3) ← parseDigit2 r2
  let r4 ← expectChar '-' r3
  let (d, r5) ← parseDigit2 r4
  if 1 ≤ y ∧ 1 ≤ mo ∧ mo ≤ 12 ∧ 1 ≤ d ∧ d ≤ daysInMonth y mo then
    match r5 with
    | [] => pure ⟨y, mo, d, 0, 0, 0, 0, none⟩
    | _sep :: r6 => do
      let (h, mi, s, us, off) ← parseTimeTail r6
      if h ≤ 23 ∧ mi ≤ 59 ∧ s ≤ 59 then
        pure ⟨y, mo, d, h, mi, s, us, off⟩
      else none
  else none

/-- Zero-padded two-digit rendering, as `strftime` pads. -/
def pad2 (n : Nat) : String := if n < 10 then "0" ++ toString n else toString n

/-- `dt.strftime("%H:%M")`: the wall-clock hour and minute of the datetime. -/
def strftimeHM (dt : PyDateTime) : String := pad2 dt.hour ++ ":" ++ pad2 dt.minute

/-- Days from civil epoch 1970-01-01 (Howard Hinnant's civil-days formula);
used only to compare parsed timestamps as instants. -/
def daysFromCivil (y m d : Int) : Int :=
  let y' := if m ≤ 2 then y - 1 else y
  let era := (if 0 ≤ y' then y' else y' - 399) / 400
  let yoe := y' - era * 400
  let mp := (m + 9) % 12
  let doy := (153 * mp + 2) / 5 + d - 1
  let doe := yoe * 365 + yoe / 4 - yoe / 100 + doy
  era * 146097 + doe - 719468

/-- The instant a parsed timestamp denotes, in microseconds (UTC when an
offset is present, wall-clock otherwise), for comparing parsed timestamps. -/
def instantUsec (dt : PyDateTime) : Int :=
  ((daysFromCivil dt.year dt.month dt.day) * 86400
      + (dt.hour * 3600 + dt.minute * 60 + dt.second : Nat)
      - (dt.utcoffset.getD 0) * 60) * 1000000 + dt.usec

/-- The parsed instant of an event's `created_at`, after the pipeline's
`.replace('Z', '+00:00')` preprocessing; `none` when unparsable. -/
def parsedInstant (ev : RawEvent) : Option Int :=
  (fromisoformat (pyReplaceChar (ev.created_at.getD "") 'Z' "+00:00")).map instantUsec

/-! ## Event normalization (`format_event_description`) -/

namespace Optimized

/-- `optimized.py` `format_event_description`.  Returns `none` exactly when
the Python function raises: `event.get('event_type')` is `None` and the
fallback line calls `.replace` on it (`AttributeError`).  The answer branch
matches the tag `question_answered`. -/
def format_event_description (ev : RawEvent) : Option String :=
  let desc := ev.description.getD ""
  match ev.event_type with
  | none => none
  | some t =>
    if t = "session_started" then some "Session started"
    else if t = "question_answered" then
      some ("Answered question:#" ++ ev.data_question_id.getD "N/A")
    else if t = "window_blurred" then
      some "Stopped viewing the Canvas quiz-taking page..."
    else if t = "window_focused" then some "Resumed."
    else if t = "page_view" then
      some ("Viewed page: " ++ (if desc ≠ "" then desc else ev.url.getD "N/A"))
    else
      some (pyCapitalize (pyReplaceChar t '_' " ")
              ++ (if desc ≠ "" then ": " ++ desc else ""))

end Optimized

namespace Checker

/-- `checker.py` `format_event_description`.  Identical to the optimized
variant except that its answer branch matches the tag `Youtubeed`, so a
`question_answered` event falls to the generic fallback. -/
def format_event_description (ev : RawEvent) : Option String :=
  let desc := ev.description.getD ""
  match ev.event_type with
  | none => none
  | some t =>
    if t = "session_started" then some "Session started"
    else if t = "Youtubeed" then
      some ("Answered question:#" ++ ev.data_question_id.getD "N/A")
    else if t = "window_blurred" then
      some "Stopped viewing the Canvas quiz-taking page..."
    else if t = "window_focused" then some "Resumed."
    else if t = "page_view" then
      some ("Viewed page: " ++ (if desc ≠ "" then desc else ev.url.getD "N/A"))
    else
      some (pyCapitalize (pyReplaceChar t '_' " ")
              ++ (if desc ≠ "" then ": " ++ desc else ""))

end Checker

/-- The spec's wording of the unknown-tag fallback, for comparison with the
source functions: the tag with underscores replaced by spaces and the first
letter capitalized (other characters untouched), suffixed with the raw
description when one is present. -/
def specFallbackRender (tag desc : String) : String :=
  let base :=
    match (pyReplaceChar tag '_' " ").data with
    | [] => ""
    | c :: rest => String.mk (c.toUpper :: rest)
  if desc ≠ "" then base ++ ": " ++ desc else base

/-! ## Per-submission event fetch (`fetch_canvas_action_log`) -/

/-- The outcome of the HTTP GET + JSON decode for one submission's events:
either a transport failure (non-2xx status, connection failure, timeout, or
malformed JSON body — the `except` branches of both scripts), or a decoded
body whose `quiz_submission_events` key held the given list (`none` when
the key is absent). -/
inductive FetchOutcome where
  | transportError : FetchOutcome
  | okBody : Option (List RawEvent) → FetchOutcome
deriving DecidableEq

namespace Checker

/-- `checker.py` `fetch_canvas_action_log`: returns the event list (possibly
empty), or `None` when the key is absent or any transport/decoding error
occurred. -/
def fetch_canvas_action_log : FetchOutcome → Option (List RawEvent)
  | FetchOutcome.transportError => none
  | FetchOutcome.okBody events => events

end Checker

namespace Optimized

/-- `optimized.py` `fetch_canvas_action_log`: returns
`response.json().get('quiz_submission_events', [])`, and returns `[]` from
its blanket `except` branch on any transport/decoding error. -/
def fetch_canvas_action_log : FetchOutcome → List RawEvent
  | FetchOutcome.transportError => []
  | FetchOutcome.okBody events => events.getD []

end Optimized

/-! ## Deduplication (`skip_duplicates`, `checker.py`) -/

/-- The identity key of a consolidated event row, as built by
`skip_duplicates`: `(submission_id, timestamp_hh_mm, action_description,
raw_event_type)`. -/
def eventKey (e : NormalizedEvent) : Nat × String × String × String :=
  (e.submission_id, e.timestamp_hh_mm, e.action_description, e.raw_event_type)

/-- The loop of `skip_duplicates`: `seen` is the set of keys met so far,
`unique_events` is the accumulated output (kept here as the recursion's
result so the input order is preserved exactly as `append` preserves it). -/
def skip_duplicates_go : List NormalizedEvent → List (Nat × String × String × String) →
    List NormalizedEvent
  | [], _ => []
  | e :: rest, seen =>
    if eventKey e ∈ seen then skip_duplicates_go rest seen
    else e :: skip_duplicates_go rest (eventKey e :: seen)

/-- `checker.py` `skip_duplicates`: removes rows whose identity key was
already seen, keeping the first occurrence. -/
def skip_duplicates (events_list : List NormalizedEvent) : List NormalizedEvent :=
  skip_duplicates_go events_list []

/-- Specification-level first-occurrence-wins deduplication: keep the head,
drop every later row with the same identity key, recurse. -/
def dedupeFirstWins : List NormalizedEvent → List NormalizedEvent
  | [] => []
  | x :: xs => x :: dedupeFirstWins (xs.filter (fun y => eventKey y != eventKey x))
termination_by l => l.length
decreasing_by
  simp only [List.length_cons]
  exact Nat.lt_succ_of_le (List.length_filter_le _ _)

/-! ## Per-submission chronological sort

All three scripts sort one submission's events with
`events.sort(key=lambda e: e.get('created_at', ''))`.  Python's `list.sort`
is a stable sort by the key under lexicographic string comparison; a stable
sort by a total key is extensionally unique, so it is embedded as a stable
insertion sort on the same key. -/

/-- The sort key: the raw `created_at` string, the empty string when the
field is absent. -/
def createdKey (ev : RawEvent) : String := ev.created_at.getD ""

/-- Stable insertion of an event into an already-sorted list: walk past
strictly smaller keys, insert before the first key that is not smaller, so
an inserted event precedes equal-key events that were fetched after it. -/
def insertByCreated (a : RawEvent) : List RawEvent → List RawEvent
  | [] => [a]
  | b :: l =>
    if pyStrLt (createdKey b) (createdKey a) then b :: insertByCreated a l
    else a :: b :: l

/-- The embedded `events.sort(key=lambda e: e.get('created_at', ''))`. -/
def sortByCreatedAt : List RawEvent → List RawEvent
  | [] => []
  | x :: xs => insertByCreated x (sortByCreatedAt xs)

/-! ## Pagination loop (`fetch_quiz_submissions_for_user`, `checker.py`) -/

/-- One page of the mock submissions API: the decoded body's
`quiz_submissions` key (`none` when absent), and whether the response's
`Link` header was present and carried a usable `rel="next"` entry. -/
structure PageResp where
  submissions : Option (List Submission)
  hasNextLink : Bool

/-- The `while True` pagination loop of `fetch_quiz_submissions_for_user`:
fetch the current page; break (returning the accumulator) when the page's
submission list is absent or empty; otherwise extend the accumulator and
continue to the next page only when a next link is present.  `fuel` bounds
the recursion (`none` = the loop has not terminated within `fuel`
iterations); the result also counts the requests issued. -/
def fetchSubsLoop (api : Nat → PageResp) :
    Nat → Nat → List Submission → Nat → Option (List Submission × Nat)
  | 0, _, _, _ => none
  | fuel + 1, page, acc, reqs =>
    let r := api page
    match r.submissions with
    | none => some (acc, reqs + 1)
    | some [] => some (acc, reqs + 1)
    | some subs =>
      if r.hasNextLink then fetchSubsLoop api fuel (page + 1) (acc ++ subs) (reqs + 1)
      else some (acc ++ subs, reqs + 1)

/-- `checker.py` `fetch_quiz_submissions_for_user` over a mock API, starting
at page 1 with an empty accumulator. -/
def fetch_quiz_submissions_for_user (api : Nat → PageResp) (fuel : Nat) :
    Option (List Submission × Nat) :=
  fetchSubsLoop api fuel 1 [] 0

/-- The flattened items of the first `n` pages (pages are numbered from 1). -/
def joinPages (api : Nat → PageResp) (n : Nat) : List Submission :=
  ((List.range n).map (fun i => (api (i + 1)).submissions.getD [])).flatten

/-! ## Consolidation (`optimized.py` `process_student_submissions` and the
`as_completed` merge of its `__main__` block) -/

/-- The fetched environment of one run: which submissions each student has
and which events each submission has (the deterministic responses of the
mock API). -/
structure Env where
  subsOf : Nat → List Submission
  eventsOf : Nat → List RawEvent

/-- Normalization of one raw event into a consolidated row
(`optimized.py` lines 77–94): timestamp rendered `HH:MM` via
`fromisoformat` after `.replace('Z', '+00:00')`, with the `'N/A'` sentinel
when parsing fails; `none` models the uncaught exception of
`format_event_description` on a missing `event_type`. -/
def processEvent (sid : Nat) (sname : String) (subId : Nat) (ev : RawEvent) :
    Option NormalizedEvent :=
  let ts := ev.created_at.getD ""
  let time :=
    match fromisoformat (pyReplaceChar ts 'Z' "+00:00") with
    | some dt => strftimeHM dt
    | none => "N/A"
  (Optimized.format_event_description ev).map fun act =>
    { student_id := sid
      student_name := sname
      submission_id := subId
      timestamp_hh_mm := time
      action_description := act
      raw_event_type := ev.event_type.getD "N/A"
      raw_description := ev.description.getD ""
      user_agent := ev.user_agent.getD ""
      url := ev.url.getD "" }

/-- The submission loop of `process_student_submissions`: skip submissions
whose `id` is falsy (`if not submission_id: continue`, so absent or `0`),
sort each submission's events by their raw `created_at` string, normalize
each in sorted order.  `none` models an exception escaping the worker. -/
def processSubs (env : Env) (sid : Nat) (sname : String) :
    List Submission → Option (List NormalizedEvent)
  | [] => some []
  | sub :: rest =>
    match sub.id with
    | none => processSubs env sid sname rest
    | some subId =>
      if subId = 0 then processSubs env sid sname rest
      else do
        let rows ← (sortByCreatedAt (env.eventsOf subId)).mapM (processEvent sid sname subId)
        let more ← processSubs env sid sname rest
        pure (rows ++ more)

/-- `optimized.py` `process_student_submissions` for one student. -/
def process_student_submissions (env : Env) (s : StudentInfo) :
    Option (List NormalizedEvent) :=
  processSubs env s.id s.name (env.subsOf s.id)

/-- Appending every per-worker result in the order the workers completed
(the `for f in as_completed(futures): all_events.extend(f.result())` loop);
`none` models a worker's exception reaching `f.result()` and aborting. -/
def collectAll : List (Option (List NormalizedEvent)) → Option (List NormalizedEvent)
  | [] => some []
  | o :: rest => do
    let l ← o
    let ls ← collectAll rest
    pure (l ++ ls)

/-- The consolidated sequence handed to the CSV exporter, given the worker
completion order `order` (a permutation of the enrolled students decided by
the thread pool at run time). -/
def consolidate (env : Env) (order : List StudentInfo) :
    Option (List NormalizedEvent) :=
  collectAll (order.map (process_student_submissions env))

/-! ## Order lemmas for the lexicographic key comparison -/

theorem charListLt_nil_right (l : List Char) : charListLt l [] = false := by
  cases l <;> rfl

theorem charListLt_irrefl (l : List Char) : charListLt l l = false := by
  induction l with
  | nil => rfl
  | cons a as ih => simp [charListLt, ih]

theorem charListLt_asymm : ∀ {x y : List Char},
    charListLt x y = true → charListLt y x = false := by
  intro x
  induction x with
  | nil =>
    intro y h
    exact charListLt_nil_right y
  | cons a as ih =>
    intro y h
    cases y with
    | nil => simp [charListLt] at h
    | cons b bs =>
      simp only [charListLt] at h ⊢
      split_ifs at h ⊢ with h1 h2 h3 h4 <;> try omega
      all_goals first
        | rfl
        | exact ih h

theorem charListLt_false_trans : ∀ (x y z : List Char),
    charListLt y x = false → charListLt z y = false → charListLt z x = false := by
  intro x
  induction x with
  | nil =>
    intro y z _ _
    exact charListLt_nil_right z
  | cons a as ih =>
    intro y z h1 h2
    cases y with
    | nil => simp [charListLt] at h1
    | cons b bs =>
      cases z with
      | nil => simp [charListLt] at h2
      | cons c cs =>
        simp only [charListLt] at h1 h2 ⊢
        split_ifs at h1 h2 ⊢ with h3 h4 h5 h6 h7 h8 <;> try omega
        all_goals first
          | rfl
          | (exact ih bs cs h1 h2)

theorem charListLt_ne_of_lt {x y : List Char} (h : charListLt x y = true) : x ≠ y := by
  intro he
  rw [he, charListLt_irrefl] at h
  exact Bool.false_ne_true h

theorem pyStrLt_nonempty (s : String) (h : s ≠ "") : pyStrLt "" s = true := by
  unfold pyStrLt
  cases hs : s.data with
  | nil =>
    exfalso
    apply h
    cases s with
    | mk data =>
      simp only at hs
      subst hs
      decide
  | cons c cs => rfl

/-! ## Sorting lemmas -/

/-- The non-decreasing-key relation the sorted output satisfies:
`a` precedes `b` only if `b`'s key is not smaller than `a`'s. -/
def createdKeyLE (a b : RawEvent) : Prop :=
  pyStrLt (createdKey b) (createdKey a) = false

theorem perm_insertByCreated (a : RawEvent) (l : List RawEvent) :
    (insertByCreated a l).Perm (a :: l) := by
  induction l with
  | nil => exact List.Perm.refl _
  | cons b t ih =>
    cases hlt : pyStrLt (createdKey b) (createdKey a) with
    | true =>
      have he : insertByCreated a (b :: t) = b :: insertByCreated a t := by
        simp [insertByCreated, hlt]
      rw [he]
      exact (ih.cons b).trans (List.Perm.swap a b t)
    | false =>
      have he : insertByCreated a (b :: t) = a :: b :: t := by
        simp [insertByCreated, hlt]
      rw [he]

theorem mem_insertByCreated {y a : RawEvent} {l : List RawEvent} :
    y ∈ insertByCreated a l ↔ y = a ∨ y ∈ l := by
  rw [(perm_insertByCreated a l).mem_iff, List.mem_cons]

theorem pairwise_insertByCreated (a : RawEvent) (l : List RawEvent)
    (h : l.Pairwise createdKeyLE) :
    (insertByCreated a l).Pairwise createdKeyLE := by
  induction l with
  | nil => simp [insertByCreated]
  | cons b t ih =>
    rw [List.pairwise_cons] at h
    cases hlt : pyStrLt (createdKey b) (createdKey a) with
    | true =>
      have he : insertByCreated a (b :: t) = b :: insertByCreated a t := by
        simp [insertByCreated, hlt]
      rw [he, List.pairwise_cons]
      refine ⟨?_, ih h.2⟩
      intro y hy
      rcases mem_insertByCreated.mp hy with rfl | hyt
      · exact charListLt_asymm hlt
      · exact h.1 y hyt
    | false =>
      have he : insertByCreated a (b :: t) = a :: b :: t := by
        simp [insertByCreated, hlt]
      rw [he, List.pairwise_cons]
      refine ⟨?_, List.pairwise_cons.mpr h⟩
      intro y hy
      rcases List.mem_cons.mp hy with rfl | hyt
      · exact hlt
      · exact charListLt_false_trans _ _ _ hlt (h.1 y hyt)

theorem perm_sortByCreatedAt (l : List RawEvent) : (sortByCreatedAt l).Perm l := by
  induction l with
  | nil => exact List.Perm.refl _
  | cons x xs ih =>
    exact (perm_insertByCreated x (sortByCreatedAt xs)).trans (ih.cons x)

theorem pairwise_sortByCreatedAt (l : List RawEvent) :
    (sortByCreatedAt l).Pairwise createdKeyLE := by
  induction l with
  | nil => exact List.Pairwise.nil
  | cons x xs ih => exact pairwise_insertByCreated x _ ih

theorem filter_insertByCreated (a : RawEvent) (l : List RawEvent) (k : String) :
    (insertByCreated a l).filter (fun e => createdKey e == k)
      = if createdKey a == k then a :: l.filter (fun e => createdKey e == k)
        else l.filter (fun e => createdKey e == k) := by
  induction l with
  | nil =>
    cases hak : createdKey a == k <;> simp [insertByCreated, List.filter_cons, hak]
  | cons b t ih =>
    cases hlt : pyStrLt (createdKey b) (createdKey a) with
    | true =>
      have he : insertByCreated a (b :: t) = b :: insertByCreated a t := by
        simp [insertByCreated, hlt]
      cases hak : createdKey a == k with
      | true =>
        have hbk : (createdKey b == k) = false := by
          rw [beq_eq_false_iff_ne]
          intro hbe
          have hka : createdKey a = k := eq_of_beq hak
          exact charListLt_ne_of_lt hlt (by rw [hbe, hka])
        rw [he]
        simp only [List.filter_cons, hbk, ih, hak, if_true]
        simp
      | false =>
        rw [he]
        simp only [List.filter_cons, ih, hak, if_false]
        cases hbk : createdKey b == k <;> simp
    | false =>
      have he : insertByCreated a (b :: t) = a :: b :: t := by
        simp [insertByCreated, hlt]
      rw [he]
      cases hak : createdKey a == k <;> simp [List.filter_cons, hak]

theorem stable_sortByCreatedAt (l : List RawEvent) (k : String) :
    (sortByCreatedAt l).filter (fun e => createdKey e == k)
      = l.filter (fun e => createdKey e == k) := by
  induction l with
  | nil => rfl
  | cons x xs ih =>
    show (insertByCreated x (sortByCreatedAt xs)).filter _ = _
    rw [filter_insertByCreated]
    cases hxk : createdKey x == k <;> simp [List.filter_cons, hxk, ih]

/-! ## Deduplication lemmas -/

theorem skip_duplicates_go_eq (l : List NormalizedEvent)
    (seen : List (Nat × String × String × String)) :
    skip_duplicates_go l seen
      = dedupeFirstWins (l.filter (fun y => decide (eventKey y ∉ seen))) := by
  induction l generalizing seen with
  | nil => simp [skip_duplicates_go, dedupeFirstWins]
  | cons e rest ih =>
    by_cases hmem : eventKey e ∈ seen
    · have h1 : skip_duplicates_go (e :: rest) seen = skip_duplicates_go rest seen := by
        simp [skip_duplicates_go, hmem]
      have h2 : (e :: rest).filter (fun y => decide (eventKey y ∉ seen))
          = rest.filter (fun y => decide (eventKey y ∉ seen)) := by
        simp [List.filter_cons, hmem]
      rw [h1, h2, ih]
    · have h1 : skip_duplicates_go (e :: rest) seen
          = e :: skip_duplicates_go rest (eventKey e :: seen) := by
        simp [skip_duplicates_go, hmem]
      have h2 : (e :: rest).filter (fun y => decide (eventKey y ∉ seen))
          = e :: rest.filter (fun y => decide (eventKey y ∉ seen)) := by
        simp [List.filter_cons, hmem]
      rw [h1, h2, ih]
      show _ = dedupeFirstWins (e :: _)
      rw [dedupeFirstWins]
      congr 1
      rw [List.filter_filter]
      congr 1
      apply List.filter_congr
      intro y _
      by_cases hy : eventKey y = eventKey e
      · simp [hy]
      · by_cases hys : eventKey y ∈ seen <;> simp [hy, hys]

/-- `skip_duplicates` is exactly the canonical first-occurrence-wins
deduplication. -/
theorem skip_duplicates_eq_dedupeFirstWins (l : List NormalizedEvent) :
    skip_duplicates l = dedupeFirstWins l := by
  rw [skip_duplicates, skip_duplicates_go_eq]
  congr 1
  apply List.filter_eq_self.mpr
  intro a _
  simp

theorem dedupeFirstWins_sublist : ∀ (n : Nat) (l : List NormalizedEvent),
    l.length ≤ n → (dedupeFirstWins l).Sublist l := by
  intro n
  induction n with
  | zero =>
    intro l hl
    have : l = [] := List.eq_nil_of_length_eq_zero (Nat.le_zero.mp hl)
    subst this
    simp [dedupeFirstWins]
  | succ m ih =>
    intro l hl
    cases l with
    | nil => simp [dedupeFirstWins]
    | cons x xs =>
      rw [dedupeFirstWins]
      apply List.Sublist.cons₂
      have hlen : (xs.filter (fun y => eventKey y != eventKey x)).length ≤ m := by
        have h1 := List.length_filter_le (fun y => eventKey y != eventKey x) xs
        have h2 : xs.length ≤ m := by simpa using Nat.succ_le_succ_iff.mp hl
        omega
      exact (ih _ hlen).trans (List.filter_sublist _)

theorem dedupeFirstWins_pairwise_keys : ∀ (n : Nat) (l : List NormalizedEvent),
    l.length ≤ n →
    (dedupeFirstWins l).Pairwise (fun a b => eventKey a ≠ eventKey b) := by
  intro n
  induction n with
  | zero =>
    intro l hl
    have : l = [] := List.eq_nil_of_length_eq_zero (Nat.le_zero.mp hl)
    subst this
    simp [dedupeFirstWins]
  | succ m ih =>
    intro l hl
    cases l with
    | nil => simp [dedupeFirstWins]
    | cons x xs =>
      rw [dedupeFirstWins, List.pairwise_cons]
      have hlen : (xs.filter (fun y => eventKey y != eventKey x)).length ≤ m := by
        have h1 := List.length_filter_le (fun y => eventKey y != eventKey x) xs
        have h2 : xs.length ≤ m := by simpa using Nat.succ_le_succ_iff.mp hl
        omega
      refine ⟨?_, ih _ hlen⟩
      intro y hy
      have hy' : y ∈ xs.filter (fun y => eventKey y != eventKey x) :=
        (dedupeFirstWins_sublist m _ hlen).mem hy
      have := (List.mem_filter.mp hy').2
      intro he
      rw [he] at this
      simp at this

/-- The first record of an identity-key class survives `dedupeFirstWins`. -/
theorem dedupeFirstWins_mem_first : ∀ (n : Nat) (pre : List NormalizedEvent)
    (a : NormalizedEvent) (rest : List NormalizedEvent),
    pre.length ≤ n →
    (∀ c ∈ pre, eventKey c ≠ eventKey a) →
    a ∈ dedupeFirstWins (pre ++ a :: rest) := by
  intro n
  induction n with
  | zero =>
    intro pre a rest hl _
    have : pre = [] := List.eq_nil_of_length_eq_zero (Nat.le_zero.mp hl)
    subst this
    rw [List.nil_append, dedupeFirstWins]
    exact List.mem_cons_self a _
  | succ m ih =>
    intro pre a rest hl hpre
    cases pre with
    | nil =>
      rw [List.nil_append, dedupeFirstWins]
      exact List.mem_cons_self a _
    | cons c pre' =>
      rw [List.cons_append, dedupeFirstWins]
      apply List.mem_cons_of_mem
      have hfilter : (pre' ++ a :: rest).filter (fun y => eventKey y != eventKey c)
          = pre'.filter (fun y => eventKey y != eventKey c)
            ++ a :: rest.filter (fun y => eventKey y != eventKey c) := by
        rw [List.filter_append, List.filter_cons]
        have : (eventKey a != eventKey c) = true := by
          have := hpre c (List.mem_cons_self c pre')
          simp [bne_iff_ne]
          exact fun he => this he.symm
        rw [this]
        simp
      rw [hfilter]
      apply ih
      · have h1 := List.length_filter_le (fun y => eventKey y != eventKey c) pre'
        have h2 : pre'.length ≤ m := by simpa using Nat.succ_le_succ_iff.mp hl
        omega
      · intro d hd
        exact hpre d (List.mem_cons_of_mem c (List.mem_of_mem_filter hd))

/-- A list whose identity keys are pairwise distinct is a fixpoint of
`dedupeFirstWins`. -/
theorem dedupeFirstWins_fix : ∀ (n : Nat) (l : List NormalizedEvent),
    l.length ≤ n →
    l.Pairwise (fun a b => eventKey a ≠ eventKey b) →
    dedupeFirstWins l = l := by
  intro n
  induction n with
  | zero =>
    intro l hl _
    have : l = [] := List.eq_nil_of_length_eq_zero (Nat.le_zero.mp hl)
    subst this
    simp [dedupeFirstWins]
  | succ m ih =>
    intro l hl hp
    cases l with
    | nil => simp [dedupeFirstWins]
    | cons x xs =>
      rw [List.pairwise_cons] at hp
      rw [dedupeFirstWins]
      have hfe : xs.filter (fun y => eventKey y != eventKey x) = xs := by
        apply List.filter_eq_self.mpr
        intro y hy
        have := hp.1 y hy
        simp [bne_iff_ne]
        exact fun he => this he.symm
      rw [hfe]
      have h2 : xs.length ≤ m := by simpa using Nat.succ_le_succ_iff.mp hl
      rw [ih _ h2 hp.2]

/-! ## Pagination lemmas -/

theorem fetchSubsLoop_shift (api : Nat → PageResp) :
    ∀ (fuel p : Nat) (acc : List Submission) (reqs : Nat),
    fetchSubsLoop api fuel (p + 1) acc reqs
      = fetchSubsLoop (fun i => api (i + 1)) fuel p acc reqs := by
  intro fuel
  induction fuel with
  | zero => intro p acc reqs; rfl
  | succ f ih =>
    intro p acc reqs
    show fetchSubsLoop api (f + 1) (p + 1) acc reqs
        = fetchSubsLoop (fun i => api (i + 1)) (f + 1) p acc reqs
    simp only [fetchSubsLoop]
    cases h : (api (p + 1)).submissions with
    | none => rfl
    | some subs =>
      cases subs with
      | nil => rfl
      | cons s ss =>
        cases hn : (api (p + 1)).hasNextLink with
        | true => simp only [hn, if_true]; exact ih (p + 1) (acc ++ s :: ss) (reqs + 1)
        | false => simp only [hn]; rfl

theorem joinPages_zero (api : Nat → PageResp) : joinPages api 0 = [] := rfl

theorem joinPages_succ_shift (api : Nat → PageResp) (n : Nat) :
    joinPages api (n + 1)
      = (api 1).submissions.getD [] ++ joinPages (fun i => api (i + 1)) n := by
  unfold joinPages
  rw [List.range_succ_eq_map]
  simp [List.map_map, Function.comp_def]

theorem fetchSubsLoop_spec : ∀ (N : Nat) (api : Nat → PageResp) (fuel : Nat)
    (acc : List Submission) (reqs : Nat),
    (∀ i, 1 ≤ i → i ≤ N → ∃ l, (api i).submissions = some l ∧ l ≠ []) →
    (∀ i, 1 ≤ i → i < N → (api i).hasNextLink = true) →
    ((0 < N ∧ (api N).hasNextLink = false) ∨
      (api (N + 1)).submissions = none ∨ (api (N + 1)).submissions = some []) →
    N + 1 ≤ fuel →
    fetchSubsLoop api fuel 1 acc reqs
      = some (acc ++ joinPages api N,
          reqs + (if 0 < N ∧ (api N).hasNextLink = false then N else N + 1)) := by
  intro N
  induction N with
  | zero =>
    intro api fuel acc reqs _ _ hstop hfuel
    obtain ⟨f, rfl⟩ : ∃ f, fuel = f + 1 := ⟨fuel - 1, by omega⟩
    rcases hstop with ⟨h0, _⟩ | hempty | hempty
    · exact absurd h0 (lt_irrefl 0)
    · simp only [fetchSubsLoop, hempty, joinPages_zero]
      simp
    · simp only [fetchSubsLoop, hempty, joinPages_zero]
      simp
  | succ M ih =>
    intro api fuel acc reqs hp hl hstop hfuel
    obtain ⟨f, rfl⟩ : ∃ f, fuel = f + 1 := ⟨fuel - 1, by omega⟩
    obtain ⟨l, hsub, hlne⟩ := hp 1 (le_refl 1) (by omega)
    obtain ⟨s, ss, rfl⟩ : ∃ s ss, l = s :: ss := by
      cases l with
      | nil => exact absurd rfl hlne
      | cons s ss => exact ⟨s, ss, rfl⟩
    simp only [fetchSubsLoop, hsub]
    cases hn : (api 1).hasNextLink with
    | false =>
      have hM : M = 0 := by
        by_contra hM0
        have := hl 1 (le_refl 1) (by omega)
        rw [hn] at this
        exact Bool.false_ne_true this
      subst hM
      simp only [if_false, Bool.false_eq_true]
      have hcond : (0 < 1 ∧ (api 1).hasNextLink = false) := ⟨Nat.one_pos, hn⟩
      rw [if_pos hcond, joinPages_succ_shift, joinPages_zero, hsub]
      simp
    | true =>
      simp only [if_true]
      rw [show (1 + 1 : Nat) = 1 + 1 from rfl, fetchSubsLoop_shift]
      have hp' : ∀ i, 1 ≤ i → i ≤ M →
          ∃ l, ((fun i => api (i + 1)) i).submissions = some l ∧ l ≠ [] := by
        intro i h1 h2
        exact hp (i + 1) (by omega) (by omega)
      have hl' : ∀ i, 1 ≤ i → i < M → ((fun i => api (i + 1)) i).hasNextLink = true := by
        intro i h1 h2
        exact hl (i + 1) (by omega) (by omega)
      have hstop' : (0 < M ∧ ((fun i => api (i + 1)) M).hasNextLink = false) ∨
          ((fun i => api (i + 1)) (M + 1)).submissions = none ∨
          ((fun i => api (i + 1)) (M + 1)).submissions = some [] := by
        rcases hstop with ⟨hpos, hfalse⟩ | h | h
        · cases M with
          | zero =>
            exfalso
            rw [hn] at hfalse
            simp at hfalse
          | succ M' => exact Or.inl ⟨by omega, hfalse⟩
        · exact Or.inr (Or.inl h)
        · exact Or.inr (Or.inr h)
      rw [ih (fun i => api (i + 1)) f (acc ++ s :: ss) (reqs + 1) hp' hl' hstop' (by omega)]
      have hjoin : joinPages api (M + 1)
          = (s :: ss) ++ joinPages (fun i => api (i + 1)) M := by
        rw [joinPages_succ_shift, hsub]
        rfl
      have hreq : reqs + 1
            + (if 0 < M ∧ (api (M + 1)).hasNextLink = false then M else M + 1)
          = reqs
            + (if 0 < M + 1 ∧ (api (M + 1)).hasNextLink = false then M + 1
               else M + 1 + 1) := by
        by_cases h1 : (api (M + 1)).hasNextLink = false
        · cases M with
          | zero =>
            rw [hn] at h1
            simp at h1
          | succ M' =>
            rw [if_pos ⟨Nat.succ_pos M', h1⟩, if_pos ⟨Nat.succ_pos (M' + 1), h1⟩]
            omega
        · have c1 : ¬(0 < M ∧ (api (M + 1)).hasNextLink = false) := fun hc => h1 hc.2
          have c2 : ¬(0 < M + 1 ∧ (api (M + 1)).hasNextLink = false) := fun hc => h1 hc.2
          rw [if_neg c1, if_neg c2]
          omega
      rw [hjoin, hreq, List.append_assoc]

/-! ## Consolidation lemmas -/

theorem collectAll_forall₂ :
    ∀ (opts : List (Option (List NormalizedEvent))) (rows : List NormalizedEvent),
    collectAll opts = some rows →
    ∃ blocks : List (List NormalizedEvent),
      List.Forall₂ (fun o bl => o = some bl) opts blocks ∧ rows = blocks.flatten := by
  intro opts
  induction opts with
  | nil =>
    intro rows h
    simp only [collectAll, Option.some.injEq] at h
    exact ⟨[], List.Forall₂.nil, by simp [← h]⟩
  | cons o rest ih =>
    intro rows h
    cases o with
    | none => simp [collectAll] at h
    | some l =>
      cases hr : collectAll rest with
      | none => rw [collectAll, hr] at h; simp at h
      | some ls =>
        rw [collectAll, hr] at h
        simp only [Option.bind_eq_bind, Option.some_bind, Option.some.injEq] at h
        obtain ⟨blocks, hf, hflat⟩ := ih ls hr
        refine ⟨l :: blocks, List.Forall₂.cons rfl hf, ?_⟩
        have hrows : l ++ ls = rows := by simpa using h
        simp [← hrows, hflat]

/-! ## Concrete study inputs used by witnesses and counterexamples -/

/-- Student with id 1, two events on one submission whose `created_at`
strings differ but parse to the same instant. -/
def stuA : StudentInfo := ⟨1, "A"⟩

/-- Student with id 2, one event. -/
def stuB : StudentInfo := ⟨2, "B"⟩

/-- Student with id 3, two events with mixed UTC offsets. -/
def stuC : StudentInfo := ⟨3, "C"⟩

/-- Fetched first for submission 11; seconds spelled out. -/
def evA1 : RawEvent :=
  ⟨some "session_started", some "2024-01-01T10:00:00", some "a", none, none, none⟩

/-- Fetched second for submission 11; same wall time without seconds, a
lexicographically smaller string parsing to the same instant. -/
def evA2 : RawEvent :=
  ⟨some "session_started", some "2024-01-01T10:00", some "b", none, none, none⟩

/-- The only event of submission 22. -/
def evB1 : RawEvent :=
  ⟨some "session_started", some "2024-01-01T11:00:00", some "c", none, none, none⟩

/-- Fetched first for submission 33: wall time 10:00 at +09:00, instant
2024-01-01T01:00Z. -/
def evC1 : RawEvent :=
  ⟨some "session_started", some "2024-01-01T10:00:00+09:00", some "d", none, none, none⟩

/-- Fetched second for submission 33: wall time 05:00 at +00:00, instant
2024-01-01T05:00Z — a later instant but a lexicographically smaller string. -/
def evC2 : RawEvent :=
  ⟨some "session_started", some "2024-01-01T05:00:00+00:00", some "e", none, none, none⟩

/-- The mock fetched environment for the consolidation study: student 1 owns
submission 11 with events `[evA1, evA2]`, student 2 owns submission 22 with
`[evB1]`, student 3 owns submission 33 with `[evC1, evC2]`. -/
def envC : Env :=
  ⟨fun sid =>
      if sid = 1 then [⟨some 11⟩]
      else if sid = 2 then [⟨some 22⟩]
      else if sid = 3 then [⟨some 33⟩]
      else [],
    fun sub =>
      if sub = 11 then [evA1, evA2]
      else if sub = 22 then [evB1]
      else if sub = 33 then [evC1, evC2]
      else []⟩

/-- The row `evA1` normalizes to. -/
def rowA1 : NormalizedEvent :=
  ⟨1, "A", 11, "10:00", "Session started", "session_started", "a", "", ""⟩

/-- The row `evA2` normalizes to. -/
def rowA2 : NormalizedEvent :=
  ⟨1, "A", 11, "10:00", "Session started", "session_started", "b", "", ""⟩

/-- The row `evB1` normalizes to. -/
def rowB1 : NormalizedEvent :=
  ⟨2, "B", 22, "11:00", "Session started", "session_started", "c", "", ""⟩

/-- The row `evC1` normalizes to. -/
def rowC1 : NormalizedEvent :=
  ⟨3, "C", 33, "10:00", "Session started", "session_started", "d", "", ""⟩

/-- The row `evC2` normalizes to. -/
def rowC2 : NormalizedEvent :=
  ⟨3, "C", 33, "05:00", "Session started", "session_started", "e", "", ""⟩

/-! ## Claim theorems -/

/-- Claim C1: `skip_duplicates` is stable with the first occurrence winning:
it equals the canonical first-occurrence-wins deduplication on the identity
key `(submission_id, timestamp_hh_mm, action_description, raw_event_type)`,
its output is a sublist of the input (so surviving records keep their
relative input order and all their fields), and when two records share the
identity key but differ in `url` and the first is the earliest record of
its key class, the first-seen record is in the output and the second-seen
record is not. -/
theorem skip_duplicates_first_occurrence_wins (xs : List NormalizedEvent) :
    skip_duplicates xs = dedupeFirstWins xs
    ∧ (skip_duplicates xs).Sublist xs
    ∧ ∀ (pre mid post : List NormalizedEvent) (a b : NormalizedEvent),
        xs = pre ++ a :: (mid ++ b :: post) →
        eventKey b = eventKey a →
        (∀ c ∈ pre, eventKey c ≠ eventKey a) →
        b.url ≠ a.url →
        a ∈ skip_duplicates xs ∧ b ∉ skip_duplicates xs := by
  refine ⟨skip_duplicates_eq_dedupeFirstWins xs, ?_, ?_⟩
  · rw [skip_duplicates_eq_dedupeFirstWins]
    exact dedupeFirstWins_sublist xs.length xs (le_refl _)
  · intro pre mid post a b hxs hkey hpre hurl
    have hmem_a : a ∈ skip_duplicates xs := by
      rw [skip_duplicates_eq_dedupeFirstWins, hxs]
      exact dedupeFirstWins_mem_first pre.length pre a _ (le_refl _) hpre
    refine ⟨hmem_a, ?_⟩
    intro hmem_b
    have hne : a ≠ b := fun he => hurl (congrArg NormalizedEvent.url he.symm)
    have hpw := dedupeFirstWins_pairwise_keys xs.length xs (le_refl _)
    rw [← skip_duplicates_eq_dedupeFirstWins] at hpw
    have hsym : Symmetric (fun a b : NormalizedEvent => eventKey a ≠ eventKey b) :=
      fun x y h he => h he.symm
    exact (hpw.forall hsym hmem_a hmem_b hne) hkey.symm

/-- Two consolidated rows sharing the identity key but with different `url`
values; the first is the first-seen record. -/
def rowU1 : NormalizedEvent :=
  ⟨1, "A", 11, "10:00", "Session started", "session_started", "", "", "http://one"⟩

/-- The second-seen record of the pair: same identity key, different `url`. -/
def rowU2 : NormalizedEvent :=
  ⟨1, "A", 11, "10:00", "Session started", "session_started", "", "", "http://two"⟩

/-- Witness for C1: on the two-record input the first-seen record (with its
`url`) survives and the second-seen record does not. -/
theorem skip_duplicates_first_occurrence_wins_witness :
    rowU1 ∈ skip_duplicates [rowU1, rowU2]
    ∧ rowU2 ∉ skip_duplicates [rowU1, rowU2] :=
  (skip_duplicates_first_occurrence_wins [rowU1, rowU2]).2.2 [] [] [] rowU1 rowU2
    rfl (by decide) (by intro c hc; simp at hc) (by decide)

/-- Claim C4: `skip_duplicates` is idempotent. -/
theorem skip_duplicates_idempotent (xs : List NormalizedEvent) :
    skip_duplicates (skip_duplicates xs) = skip_duplicates xs := by
  rw [skip_duplicates_eq_dedupeFirstWins]
  apply dedupeFirstWins_fix (skip_duplicates xs).length _ (le_refl _)
  rw [skip_duplicates_eq_dedupeFirstWins]
  exact dedupeFirstWins_pairwise_keys xs.length xs (le_refl _)

/-- Claim C2 counterexample: the sequence handed to the exporter is NOT
independent of worker completion order, and per-submission ordering does
not follow parsed timestamps with fetch-order tie-breaks.  Concretely:
(i) merging the same per-student results in the two completion orders
`[stuA, stuB]` and `[stuB, stuA]` yields different consolidated sequences;
(ii) submission 11's events were fetched as `[evA1, evA2]`, their
`created_at` strings parse to the same instant (a parsed-timestamp tie),
yet the output lists `evA2`'s row first — the string sort reverses the
fetch order of the tie; (iii) submission 33's output rows appear with
strictly decreasing parsed instants (mixed UTC offsets), violating
non-decreasing parsed order outright. -/
theorem consolidate_depends_on_completion_order :
    consolidate envC [stuA, stuB] ≠ consolidate envC [stuB, stuA]
    ∧ process_student_submissions envC stuA = some [rowA2, rowA1]
    ∧ fromisoformat "2024-01-01T10:00:00" = fromisoformat "2024-01-01T10:00"
    ∧ rowA1 ≠ rowA2
    ∧ process_student_submissions envC stuC = some [rowC2, rowC1]
    ∧ parsedInstant evC1 = some 1704070800000000
    ∧ parsedInstant evC2 = some 1704085200000000
    ∧ (1704070800000000 : Int) < 1704085200000000 :=
  ⟨by decide, by decide, by decide, by decide, by decide, by decide, by decide,
    by decide⟩

/-- Claim C2 (amended): the consolidated sequence is the concatenation of
per-student row lists in worker completion order (hence it depends on that
order); each worker's rows are grouped by submission in fetch order, and
each submission's rows are produced from its events stably sorted into
non-decreasing raw `created_at` string order (which is the only ordering
guarantee — not parsed-timestamp order with fetch-order tie-breaks). -/
theorem consolidate_block_structure (env : Env) (order : List StudentInfo)
    (rows : List NormalizedEvent) (h : consolidate env order = some rows) :
    (∃ blocks : List (List NormalizedEvent),
        List.Forall₂ (fun s bl => process_student_submissions env s = some bl)
          order blocks
        ∧ rows = blocks.flatten)
    ∧ ∀ subId : Nat,
        (sortByCreatedAt (env.eventsOf subId)).Perm (env.eventsOf subId)
        ∧ (sortByCreatedAt (env.eventsOf subId)).Pairwise createdKeyLE := by
  constructor
  · obtain ⟨blocks, hf, hflat⟩ := collectAll_forall₂ _ rows h
    refine ⟨blocks, ?_, hflat⟩
    rw [List.forall₂_map_left_iff] at hf
    exact hf
  · intro subId
    exact ⟨perm_sortByCreatedAt _, pairwise_sortByCreatedAt _⟩

/-- Witness for the amended C2 on a concrete successful run. -/
theorem consolidate_block_structure_witness :
    consolidate envC [stuA] = some [rowA2, rowA1]
    ∧ ∃ blocks : List (List NormalizedEvent),
        List.Forall₂ (fun s bl => process_student_submissions envC s = some bl)
          [stuA] blocks
        ∧ [rowA2, rowA1] = blocks.flatten := by
  have hc : consolidate envC [stuA] = some [rowA2, rowA1] := by decide
  exact ⟨hc, (consolidate_block_structure envC [stuA] _ hc).1⟩

/-- A mock API whose very first page is empty (the N = 0 case of the
claim's mock-API family). -/
def apiEmptyFirst : Nat → PageResp := fun _ => ⟨some [], false⟩

/-- Claim C3 counterexample: for the N = 0 mock API (first page empty) the
loop still issues one request before terminating, so it does not issue
requests for exactly N pages for every N ≥ 0 as the claim states (it must
fetch a page to observe that it is empty). -/
theorem pagination_request_count_counterexample :
    fetch_quiz_submissions_for_user apiEmptyFirst 5 = some ([], 1)
    ∧ (1 : Nat) ≠ 0 :=
  ⟨by decide, by decide⟩

/-- Claim C3 (amended): for a mock API returning N non-empty pages and then
stopping — either because page N's response lacks a next link, or because
page N+1 is empty or lacks the submissions key — the loop terminates (its
result is the same for every sufficient fuel) and yields exactly the items
of pages 1..N in order; it issues N requests when it stops on the missing
next link of page N, and N+1 requests when it stops by fetching and
observing the empty page N+1.  This holds for every N ≥ 0. -/
theorem pagination_yields_exactly_n_pages (api : Nat → PageResp) (N : Nat)
    (hpages : ∀ i, 1 ≤ i → i ≤ N → ∃ l, (api i).submissions = some l ∧ l ≠ [])
    (hlinks : ∀ i, 1 ≤ i → i < N → (api i).hasNextLink = true)
    (hstop : (0 < N ∧ (api N).hasNextLink = false) ∨
      (api (N + 1)).submissions = none ∨ (api (N + 1)).submissions = some [])
    (fuel : Nat) (hfuel : N + 1 ≤ fuel) :
    fetch_quiz_submissions_for_user api fuel
      = some (joinPages api N,
          if 0 < N ∧ (api N).hasNextLink = false then N else N + 1) := by
  rw [fetch_quiz_submissions_for_user,
    fetchSubsLoop_spec N api fuel [] 0 hpages hlinks hstop hfuel]
  simp

/-- A mock API with two non-empty pages, the second without a next link. -/
def apiTwoPages : Nat → PageResp := fun n =>
  if n = 1 then ⟨some [⟨some 1⟩], true⟩
  else if n = 2 then ⟨some [⟨some 2⟩], false⟩
  else ⟨some [], false⟩

/-- Witness for the amended C3: the two-page mock yields both pages' items
with two requests. -/
theorem pagination_yields_exactly_n_pages_witness :
    fetch_quiz_submissions_for_user apiTwoPages 9
      = some ([⟨some 1⟩, ⟨some 2⟩], 2) := by
  have hp : ∀ i, 1 ≤ i → i ≤ 2 →
      ∃ l, (apiTwoPages i).submissions = some l ∧ l ≠ [] := by
    intro i h1 h2
    have : i = 1 ∨ i = 2 := by omega
    rcases this with rfl | rfl
    · exact ⟨[⟨some 1⟩], by decide, by decide⟩
    · exact ⟨[⟨some 2⟩], by decide, by decide⟩
  have hl : ∀ i, 1 ≤ i → i < 2 → (apiTwoPages i).hasNextLink = true := by
    intro i h1 h2
    have : i = 1 := by omega
    subst this
    decide
  have h := pagination_yields_exactly_n_pages apiTwoPages 2 hp hl
    (Or.inl ⟨by omega, by decide⟩) 9 (by omega)
  exact h.trans (by decide)

/-- The unknown-tag event with an uppercase component that separates the
spec wording from Python's `str.capitalize`. -/
def evWeirdUpper : RawEvent :=
  ⟨some "custom_WEIRD_event", none, some "hi", none, none, none⟩

/-- Claim C5 counterexample: for the unrecognized tag `custom_WEIRD_event`
with description `hi`, both normalizers return `Custom weird event: hi`
(Python's `capitalize` also lowercases the remaining characters), not the
claim's rendering `Custom WEIRD event: hi` (underscores→spaces and first
letter capitalized, everything else untouched). -/
theorem fallback_capitalize_counterexample :
    Optimized.format_event_description evWeirdUpper = some "Custom weird event: hi"
    ∧ Checker.format_event_description evWeirdUpper = some "Custom weird event: hi"
    ∧ specFallbackRender "custom_WEIRD_event" "hi" = "Custom WEIRD event: hi"
    ∧ Optimized.format_event_description evWeirdUpper
        ≠ some (specFallbackRender "custom_WEIRD_event" "hi") :=
  ⟨by decide, by decide, by decide, by decide⟩

/-- Claim C5 (amended): for every event whose `event_type` is a string tag
not among the recognized tags of either normalizer, both normalizers return
(without raising) the tag with underscores replaced by spaces, its first
character uppercased and the remaining characters lowercased, suffixed with
`: ` and the raw description when a non-empty description is present. -/
theorem fallback_unrecognized_tag (ev : RawEvent) (t : String)
    (ht : ev.event_type = some t)
    (h1 : t ≠ "session_started") (h2 : t ≠ "question_answered")
    (h3 : t ≠ "Youtubeed") (h4 : t ≠ "window_blurred")
    (h5 : t ≠ "window_focused") (h6 : t ≠ "page_view") :
    Optimized.format_event_description ev
        = some (pyCapitalize (pyReplaceChar t '_' " ")
            ++ (if ev.description.getD "" ≠ "" then ": " ++ ev.description.getD ""
                else ""))
    ∧ Checker.format_event_description ev
        = some (pyCapitalize (pyReplaceChar t '_' " ")
            ++ (if ev.description.getD "" ≠ "" then ": " ++ ev.description.getD ""
                else "")) := by
  constructor <;>
    simp [Optimized.format_event_description, Checker.format_event_description,
      ht, h1, h2, h3, h4, h5, h6]

/-- Witness for the amended C5, which is exactly the claim's concrete
instance: tag `custom_weird_event` with description `hi` normalizes to
`Custom weird event: hi` in both normalizers. -/
theorem fallback_unrecognized_tag_witness :
    Optimized.format_event_description
        ⟨some "custom_weird_event", none, some "hi", none, none, none⟩
      = some "Custom weird event: hi"
    ∧ Checker.format_event_description
        ⟨some "custom_weird_event", none, some "hi", none, none, none⟩
      = some "Custom weird event: hi" := by
  have h := fallback_unrecognized_tag
    ⟨some "custom_weird_event", none, some "hi", none, none, none⟩
    "custom_weird_event" rfl (by decide) (by decide) (by decide) (by decide)
    (by decide) (by decide)
  exact ⟨h.1.trans (by decide), h.2.trans (by decide)⟩

/-- Claim C6: when `created_at` is missing or unparsable, normalization
produces the row with the sentinel `N/A` timestamp and every other field
computed normally; the parse failure is absorbed locally — whether a row is
produced at all depends only on `format_event_description`, never on the
timestamp. -/
theorem unparsable_timestamp_yields_sentinel (sid : Nat) (sname : String)
    (subId : Nat) (ev : RawEvent)
    (h : ev.created_at = none
        ∨ fromisoformat (pyReplaceChar (ev.created_at.getD "") 'Z' "+00:00") = none) :
    processEvent sid sname subId ev
      = (Optimized.format_event_description ev).map (fun act =>
          ⟨sid, sname, subId, "N/A", act, ev.event_type.getD "N/A",
            ev.description.getD "", ev.user_agent.getD "", ev.url.getD ""⟩) := by
  have hnone : fromisoformat (pyReplaceChar (ev.created_at.getD "") 'Z' "+00:00")
      = none := by
    rcases h with h | h
    · simp only [h, Option.getD_none]
      decide
    · exact h
  simp [processEvent, hnone]

/-- An event with an unparsable timestamp and an unrecognized tag. -/
def evGarbage : RawEvent := ⟨some "x_y", some "garbage", none, none, none, none⟩

/-- Witness for C6: the concrete unparsable timestamp `garbage` yields the
sentinel row with all other fields computed normally. -/
theorem unparsable_timestamp_yields_sentinel_witness :
    fromisoformat (pyReplaceChar (evGarbage.created_at.getD "") 'Z' "+00:00") = none
    ∧ processEvent 1 "s" 2 evGarbage
        = some ⟨1, "s", 2, "N/A", "X y", "x_y", "", "", ""⟩ := by
  have h := unparsable_timestamp_yields_sentinel 1 "s" 2 evGarbage (Or.inr (by decide))
  exact ⟨by decide, h.trans (by decide)⟩

/-- Claim C7 (amended): the checker fetcher returns the empty list (a
success) when the events key is present but empty, and `None` on a
transport failure — two distinguishable results; the optimized fetcher maps
the present-but-empty key to the empty list as well. -/
theorem fetch_events_empty_vs_error :
    (∀ l : List RawEvent,
        Checker.fetch_canvas_action_log (FetchOutcome.okBody (some l)) = some l)
    ∧ Checker.fetch_canvas_action_log (FetchOutcome.okBody (some [])) = some []
    ∧ Checker.fetch_canvas_action_log FetchOutcome.transportError = none
    ∧ (none : Option (List RawEvent)) ≠ some []
    ∧ Optimized.fetch_canvas_action_log (FetchOutcome.okBody (some [])) = [] :=
  ⟨fun _ => rfl, rfl, rfl, by decide, rfl⟩

/-- Claim C7 counterexample: the optimized fetcher returns the very same
empty list for a transport failure as for a successful response whose
events key is present but empty — the two outcomes are conflated, not
distinguishable as the claim states. -/
theorem optimized_fetch_conflates_error_and_empty :
    Optimized.fetch_canvas_action_log FetchOutcome.transportError
      = Optimized.fetch_canvas_action_log (FetchOutcome.okBody (some []))
    ∧ Optimized.fetch_canvas_action_log FetchOutcome.transportError = [] :=
  ⟨rfl, rfl⟩

/-- A raw event carrying the Canvas answer tag `question_answered` with a
question id in its data payload. -/
def evAnswer : RawEvent := ⟨some "question_answered", none, none, none, none, some "7"⟩

/-- Claim C8 at the failing input: `checker.py`'s normalizer sends the
answer tag `question_answered` to the generic fallback (`Question
answered`, no question id) because its answer branch matches the mangled
tag `Youtubeed` instead; `optimized.py`'s normalizer renders the answer
template `Answered question:#7` as the claim states. -/
theorem answer_tag_failing_input :
    Checker.format_event_description evAnswer = some "Question answered"
    ∧ Optimized.format_event_description evAnswer = some "Answered question:#7"
    ∧ Checker.format_event_description
        ⟨some "Youtubeed", none, none, none, none, some "7"⟩
      = some "Answered question:#7"
    ∧ ("Question answered" : String) ≠ "Answered question:#7" :=
  ⟨by decide, by decide, by decide, by decide⟩

/-- Claim C9: when the `event_type` key is absent, both normalizers reach
the fallback branch and raise (modelled as `none`) by calling `.replace`
on `None`, producing no label. -/
theorem missing_event_type_raises (ev : RawEvent) (h : ev.event_type = none) :
    Optimized.format_event_description ev = none
    ∧ Checker.format_event_description ev = none := by
  constructor <;>
    simp [Optimized.format_event_description, Checker.format_event_description, h]

/-- Witness for C9 on a concrete event without an `event_type` key. -/
theorem missing_event_type_raises_witness :
    Optimized.format_event_description ⟨none, none, some "hi", none, none, none⟩ = none
    ∧ Checker.format_event_description ⟨none, none, some "hi", none, none, none⟩ = none :=
  missing_event_type_raises ⟨none, none, some "hi", none, none, none⟩ rfl

/-- Claim C10: the per-submission ordering is a stable sort on the raw
`created_at` string under lexicographic comparison: the sorted list is a
permutation of the input, pairwise non-decreasing in the string key, equal
to the input on every fixed key (ties keep original fetch order), an event
lacking `created_at` is keyed as the empty string, and no event lacking
`created_at` appears after an event with a non-empty key. -/
theorem sort_by_created_string_stable (xs : List RawEvent) :
    (sortByCreatedAt xs).Perm xs
    ∧ (sortByCreatedAt xs).Pairwise createdKeyLE
    ∧ (∀ k : String, (sortByCreatedAt xs).filter (fun e => createdKey e == k)
          = xs.filter (fun e => createdKey e == k))
    ∧ (∀ e : RawEvent, e.created_at = none → createdKey e = "")
    ∧ (∀ (l₁ : List RawEvent) (b : RawEvent) (l₂ : List RawEvent),
          sortByCreatedAt xs = l₁ ++ b :: l₂ → createdKey b ≠ "" →
          ∀ a ∈ l₂, a.created_at ≠ none) := by
  refine ⟨perm_sortByCreatedAt xs, pairwise_sortByCreatedAt xs,
    stable_sortByCreatedAt xs, ?_, ?_⟩
  · intro e he
    simp [createdKey, he]
  · intro l₁ b l₂ hdec hb a ha hnone
    have hp := pairwise_sortByCreatedAt xs
    rw [hdec, List.pairwise_append] at hp
    have h1 := hp.2.1
    rw [List.pairwise_cons] at h1
    have hle := h1.1 a ha
    have hka : createdKey a = "" := by simp [createdKey, hnone]
    unfold createdKeyLE at hle
    rw [hka, pyStrLt_nonempty _ hb] at hle
    exact Bool.noConfusion hle

/-- An event with a `created_at` string. -/
def evTs1 : RawEvent := ⟨none, some "2024", none, none, none, none⟩

/-- An event lacking `created_at`. -/
def evMiss : RawEvent := ⟨none, none, none, none, none, none⟩

/-- Another event with a later `created_at` string. -/
def evTs2 : RawEvent := ⟨none, some "2025", none, none, none, none⟩

/-- Witness for C10: the missing-timestamp event sorts to the front, and
everything after a non-empty-key element has a timestamp. -/
theorem sort_by_created_string_stable_witness :
    sortByCreatedAt [evTs1, evMiss, evTs2] = [evMiss, evTs1, evTs2]
    ∧ ∀ a ∈ [evTs2], a.created_at ≠ none := by
  have h := (sort_by_created_string_stable [evTs1, evMiss, evTs2]).2.2.2.2
    [evMiss] evTs1 [evTs2] (by decide) (by decide)
  exact ⟨by decide, h⟩
